import Mathlib

namespace Scheduler

/-!
Verification of the task-list synchronization core of the `scheduler`
repository: the merge function, the local mutation primitives of both
replica-session hooks, the relay worker's broadcast/close handlers, the
connect failure path, and the inbound data-channel message handler.

Sources embedded (shallowly) below:
  * `src/hooks/useDirectP2PSync.ts` — `Task`, `mergeTaskLists`, `addTask`,
    `toggleTask`, `connect`, `dataChannel.onmessage`, plus the Y.js hook's
    `addTask` / `toggleTask` / connection-error handler in the same file.
  * `src/worker.ts` — the relay's per-room connection sets, the WebSocket
    message handler (broadcast) and close handler (cleanup).
-/

/-- Task record, `useDirectP2PSync.ts` line 4:
`type Task = { id: string; text: string; done: boolean }`. -/
structure Task where
  id : String
  text : String
  done : Bool
deriving DecidableEq, Repr

/-- One `taskMap.set(task.id, task)` step on a JavaScript `Map` represented as
its insertion-ordered entry list: when a task with the same `id` is already
present its value is replaced in place (the key keeps its position), otherwise
the entry is appended at the end. -/
def mapSet (m : List Task) (t : Task) : List Task :=
  if ∃ u ∈ m, u.id = t.id then
    m.map (fun u => if u.id = t.id then t else u)
  else m ++ [t]

/-- The map built by `mergeTaskLists` before sorting: fold `mapSet` over a task
list starting from the empty map. -/
def buildMap (ts : List Task) : List Task :=
  ts.foldl mapSet []

/-- Comparison used by the final sort of `mergeTaskLists`
(`a.id.localeCompare(b.id)`), modelled as lexicographic order on the id
strings. -/
def taskIdLE (a b : Task) : Prop := a.id ≤ b.id

instance : DecidableRel taskIdLE :=
  fun a b => inferInstanceAs (Decidable (a.id ≤ b.id))

instance : IsTotal Task taskIdLE := ⟨fun a b => le_total a.id b.id⟩

instance : IsTrans Task taskIdLE := ⟨fun _ _ _ h h' => le_trans h h'⟩

/-- Strict version of `taskIdLE`; the sorted output of the merge has pairwise
distinct ids, so it is strictly sorted under this relation. -/
def taskIdLT (a b : Task) : Prop := a.id < b.id

instance : IsAntisymm Task taskIdLT :=
  ⟨fun _ _ h h' => absurd h' (lt_asymm h)⟩

/-- `Array.from(taskMap.values()).sort((a, b) => a.id.localeCompare(b.id))`:
a comparator-correct sort by id. All inputs it is applied to have pairwise
distinct ids, so any correct sort produces the same list. -/
def sortById (l : List Task) : List Task :=
  List.insertionSort taskIdLE l

/-- `mergeTaskLists` from `useDirectP2PSync.ts` lines 118-128: insert the local
tasks into an empty map, then the remote tasks (a remote task overwrites a
local task with the same id — last writer wins), then sort the values by id. -/
def mergeTaskLists (loc remote : List Task) : List Task :=
  sortById (remote.foldl mapSet (loc.foldl mapSet []))

/-- The last task with the given id in a list (`none` when the id is absent):
the value the id ends up mapped to after all the `Map.set` calls. -/
def lastId (ts : List Task) (i : String) : Option Task :=
  ts.foldl (fun acc t => if t.id = i then some t else acc) none

/-- First entry with the given id (JavaScript `Map` lookup on the entry
list representation). -/
def findId (m : List Task) (i : String) : Option Task :=
  m.find? (fun t => decide (t.id = i))

/-- Left-biased choice on options, written out so case analysis stays
elementary. -/
def optOr (a b : Option Task) : Option Task :=
  match a with
  | some t => some t
  | none => b

/-- The tasks of a list have pairwise distinct ids (the invariant of every
JavaScript `Map` keyed by id). -/
def IdsNodup (ts : List Task) : Prop :=
  ts.Pairwise (fun a b => a.id ≠ b.id)

instance (ts : List Task) : Decidable (IdsNodup ts) :=
  inferInstanceAs (Decidable (ts.Pairwise _))

/-- `addTask` of the direct-P2P hook (`useDirectP2PSync.ts` lines 471-506):
builds a record from the freshly generated uuid (passed in as `newId`, the
output of `generateUUID()`) with `done = false`, and appends it to the current
list. The subsequent data-channel broadcast does not touch the local list, and
there is no error path: the append happens whether or not a channel is open. -/
def addTask (tasks : List Task) (newId text : String) : List Task :=
  tasks ++ [{ id := newId, text := text, done := false }]

/-- `addTask` of the Y.js hook (`useDirectP2PSync.ts` lines 910-924): the state
is the optional tasks array behind `ytasksRef.current` (`none` before `connect`
and after `disconnect`). With no array attached the function warns and returns
without mutating anything; otherwise it pushes the new record. -/
def yjsAddTask (ytasks : Option (List Task)) (newId text : String) :
    Option (List Task) :=
  match ytasks with
  | none => none
  | some ts => some (ts ++ [{ id := newId, text := text, done := false }])

/-- The task list a Y.js hook state renders: empty when no document is
attached. -/
def yjsDocTasks (ytasks : Option (List Task)) : List Task :=
  match ytasks with
  | none => []
  | some ts => ts

/-- `toggleTask` of the direct-P2P hook (`useDirectP2PSync.ts` lines 508-541):
`tasks.map(task => task.id === id ? { ...task, done: !task.done } : task)`. -/
def toggleTask (tasks : List Task) (i : String) : List Task :=
  tasks.map (fun t => if t.id = i then { t with done := !t.done } else t)

/-- `toggleTask` of the Y.js hook (`useDirectP2PSync.ts` lines 926-944):
`findIndex` of the first task with the id; when found (`index !== -1`), the
element at that index is deleted and the flipped record inserted in its place
(`delete(index, 1)` then `insert(index, [updatedTask])`, i.e. a point update);
when absent nothing happens. The impossible out-of-range read (`findIdx?`
always returns an in-range index) falls back to the unchanged list. -/
def yjsToggleTask (ts : List Task) (i : String) : List Task :=
  match ts.findIdx? (fun t => decide (t.id = i)) with
  | none => ts
  | some idx =>
    match ts[idx]? with
    | none => ts
    | some t => ts.set idx { t with done := !t.done }

/-- A relay WebSocket connection: identity plus `readyState`
(`1` = OPEN, as in the worker's `ws.readyState === 1` check). -/
structure Conn where
  cid : Nat
  readyState : Nat
deriving DecidableEq, Repr

/-- The worker's `roomConnections: Map<string, Set<WebSocket>>`, as an
insertion-ordered entry list of room id and connection set (a JavaScript `Set`
holds each connection at most once, in insertion order). -/
def lookupRoom (st : List (String × List Conn)) (roomId : String) :
    Option (List Conn) :=
  (st.find? (fun e => decide (e.1 = roomId))).map Prod.snd

/-- The connection set registered under a room id (empty when the room has no
entry). -/
def roomConns (st : List (String × List Conn)) (roomId : String) : List Conn :=
  (lookupRoom st roomId).getD []

/-- The relay's message handler (`worker.ts` lines 52-61): on a message from
`server` in room `roomId`, iterate the room's connection set and send the
payload, unmodified, to every connection that is not the sender and is open
(`ws !== server && ws.readyState === 1`). The result is the list of
(recipient, delivered payload) pairs the handler produces. -/
def handleMessage (st : List (String × List Conn)) (roomId : String)
    (server : Conn) (payload : String) : List (Conn × String) :=
  match lookupRoom st roomId with
  | none => []
  | some conns =>
    (conns.filter (fun ws => decide (ws ≠ server) && decide (ws.readyState = 1))).map
      (fun ws => (ws, payload))

/-- The relay's close handler (`worker.ts` lines 63-71):
`connections.delete(server)` (a `Set` holds the connection once, so deleting it
removes every occurrence in the entry-list model), then
`if (connections.size === 0) roomConnections.delete(roomId)`. -/
def handleClose (st : List (String × List Conn)) (roomId : String)
    (server : Conn) : List (String × List Conn) :=
  match lookupRoom st roomId with
  | none => st
  | some conns =>
    let remaining := conns.filter (fun ws => decide (ws ≠ server))
    if remaining.isEmpty then
      st.filter (fun e => decide (e.1 ≠ roomId))
    else
      st.map (fun e => if e.1 = roomId then (roomId, remaining) else e)

/-- Replica connection state, `useDirectP2PSync.ts` line 5. -/
inductive ConnectionState
  | disconnected
  | connecting
  | connected
  | reconnecting
deriving DecidableEq, Repr

/-- `registerPeer` of `signaling.ts` as the hook observes it: its whole body
sits in a try/catch, resolving with the registered IP on success and with
`null` on any failure (HTTP error, bad response, IP detection failure) — the
promise never rejects, so a Discovery registration failure cannot reach
`connect`'s catch block. `httpOk` says whether the underlying request worked.
`connect` (line 412) additionally discards this return value. -/
def registerPeer (httpOk : Bool) (registeredIP : String) : Option String :=
  if httpOk then some registeredIP else none

/-- `discoverPeers` of `signaling.ts` as the hook observes it: it catches
internally and resolves with the peer list on success and with the empty list
on any failure — it never rejects, and a failed discovery is indistinguishable
from an empty room. -/
def discoverPeers (httpOk : Bool) (peers : List String) : List String :=
  if httpOk then peers else []

/-- What the direct-P2P hook's `connect` (`useDirectP2PSync.ts` lines 399-445)
leaves behind once its awaited calls settle. -/
structure ConnectOutcome where
  trace : List (ConnectionState × String)
  isHost : Bool
  connectedUsers : Nat
  syncIntervalInstalled : Bool
deriving Repr

/-- `connect` run to completion. Both `registerPeer` and `discoverPeers`
swallow their errors (see above), `loadTasks` and `syncWithPeers` catch
internally, and React state setters do not throw — so the `try` body never
rejects and the catch block (`disconnected` / "Connection failed", lines
440-444) is unreachable from a Discovery failure. In program order the hook
writes the `disconnect()` reset, `connecting` while registering, and then
always `connected`: as host when `discoverPeers` returned no peers — which a
failed discovery is indistinguishable from — and it installs the 3-second
`syncWithPeers` interval, which keeps re-attempting discovery and the WebRTC
handshake. The value `registerPeer` resolved with is discarded by `connect`,
so registration failure does not influence the outcome at all. -/
def connectRun (registerOk discoverOk : Bool) (registeredIP : String)
    (peers : List String) : ConnectOutcome :=
  let _registered := registerPeer registerOk registeredIP
  let discovered := discoverPeers discoverOk peers
  { trace :=
      [(ConnectionState.disconnected, "Not connected"),
       (ConnectionState.connecting, "Registering with discovery service..."),
       (ConnectionState.connected,
         if discovered.isEmpty then "Connected as host! 🎉 Waiting for others..."
         else "Connected! 🎉 Syncing with peers...")]
    isHost := discovered.isEmpty
    connectedUsers := discovered.length + 1
    syncIntervalInstalled := true }

/-- The state/status the Y.js hook's connection-error handler writes
(`useDirectP2PSync.ts` lines 876-880). -/
def yjsConnectionErrorOutcome : ConnectionState × String :=
  (ConnectionState.disconnected, "Connection failed - retrying automatically")

/-- JSON values, for the inbound data-channel payloads. -/
inductive Json
  | jnull
  | jbool (b : Bool)
  | jnum (n : Int)
  | jstr (s : String)
  | jarr (elems : List Json)
  | jobj (fields : List (String × Json))

/-- Strict equality `message.type === 'TASK_SYNC'`: true exactly when the
type field is present and is that string. -/
def isTaskSyncType (j : Option Json) : Bool :=
  match j with
  | some (.jstr s) => s = "TASK_SYNC"
  | _ => false

/-- A record as it lives in the replica's list once untyped remote data has
flowed through the handler: the string value of its `id` property (the Map key
and sort key) plus its remaining properties as raw JSON. The code never
validates records, so `text`/`done` may be missing or of any type; a
well-formed task is the special case `Task.toRaw`. -/
structure RawTask where
  rid : String
  fields : List (String × Json)

/-- A well-formed stored task seen as the JS record `{id, text, done}`. -/
def Task.toRaw (t : Task) : RawTask :=
  { rid := t.id, fields := [("text", Json.jstr t.text), ("done", Json.jbool t.done)] }

/-- An element of a TASK_SYNC message's `tasks` array. `jsNull` is JSON
`null`: on it `taskMap.set(task.id, task)` throws a TypeError (property
access on null), which the handler's catch absorbs before `setTasks`.
`record i fs` is an object whose `id` property is the string `i` with
arbitrary further properties `fs` — no well-formedness check exists in the
code, so such a record flows into the merge as-is. Elements whose `id`
evaluates to a non-string (numbers, objects without `id`, other primitives)
are outside this model: whether `a.id.localeCompare(b.id)` in the final sort
throws for them depends on which argument positions the engine's sort passes
them in, which ECMAScript leaves implementation-defined. -/
inductive RawElem
  | jsNull
  | record (id : String) (fields : List (String × Json))

/-- A well-formed task as a message element (`{id, text, done}`). -/
def taskToElem (t : Task) : RawElem :=
  RawElem.record t.id [("text", Json.jstr t.text), ("done", Json.jbool t.done)]

/-- The `message.tasks.forEach(task => taskMap.set(task.id, task))` loop over
the elements: `none` when a null element makes the property access throw
(nothing is observable before `setTasks`, so the catch leaves the stored list
as it was); otherwise the raw records, in order. -/
def elemsToRaw : List RawElem → Option (List RawTask)
  | [] => some []
  | RawElem.jsNull :: _ => none
  | RawElem.record i fs :: rest => (elemsToRaw rest).map (fun l => ⟨i, fs⟩ :: l)

/-- `taskMap.set` over raw records: same Map semantics as `mapSet`, keyed by
the `id` property, value the whole record. -/
def rawSet (m : List RawTask) (t : RawTask) : List RawTask :=
  if ∃ u ∈ m, u.rid = t.rid then
    m.map (fun u => if u.rid = t.rid then t else u)
  else m ++ [t]

/-- The sort comparison over raw records (`a.id.localeCompare(b.id)`). -/
def rawIdLE (a b : RawTask) : Prop := a.rid ≤ b.rid

instance : DecidableRel rawIdLE :=
  fun a b => inferInstanceAs (Decidable (a.rid ≤ b.rid))

/-- The final sort of the merge over raw records. -/
def rawSortById (l : List RawTask) : List RawTask :=
  List.insertionSort rawIdLE l

/-- `mergeTaskLists` as it actually executes on untyped remote input: the same
Map union and id sort, over raw records — local tasks first, then the remote
records overwriting on equal ids, with no validation of the records. -/
def rawMergeTaskLists (loc remote : List RawTask) : List RawTask :=
  rawSortById (remote.foldl rawSet (loc.foldl rawSet []))

/-- The value of `message.tasks` as the handler's control flow distinguishes
it. `absent`: the property is undefined or null (missing field, or
`tasks: null`) — the log line `message.tasks.length` (line 266) throws before
the merge. `notArray`: any other non-array value — `forEach` is not a
function, throwing inside `mergeTaskLists`. `arr`: an actual array. In every
throwing case the catch fires before `setTasks`. -/
inductive TasksVal
  | absent
  | notArray
  | arr (elems : List RawElem)

/-- An inbound data-channel payload as the handler distinguishes it
(`useDirectP2PSync.ts` lines 251-279). `unparseable`: `JSON.parse(event.data)`
throws — caught, logged, no state change. `nullMsg`: the JSON text "null" —
`message.type` throws on the null base into the same catch. `parsed typeField
tasks`: any other parse result, `typeField` being the value of `message.type`
(`none` when the property is missing or the message is not an object). -/
inductive DataMessage
  | unparseable
  | nullMsg
  | parsed (typeField : Option Json) (tasks : TasksVal)

/-- The data-channel message handler over the raw model. Only a parsed message
with `type === 'TASK_SYNC'` and an array `tasks` whose elements survive the
property accesses reaches `setTasks`; every other path lands in the catch (or
falls through the type test) with the stored list untouched. Note what is not
here: any well-formedness gate — the raw records, however incomplete, are
merged with the stored tasks and stored. -/
def handleDataMessage (stored : List Task) (msg : DataMessage) : List RawTask :=
  match msg with
  | DataMessage.unparseable => stored.map Task.toRaw
  | DataMessage.nullMsg => stored.map Task.toRaw
  | DataMessage.parsed typeField tasks =>
    if isTaskSyncType typeField then
      match tasks with
      | TasksVal.absent => stored.map Task.toRaw
      | TasksVal.notArray => stored.map Task.toRaw
      | TasksVal.arr elems =>
        match elemsToRaw elems with
        | none => stored.map Task.toRaw
        | some remote => rawMergeTaskLists (stored.map Task.toRaw) remote
    else stored.map Task.toRaw

/-! ### Option and `lastId` facts -/

theorem optOr_none (b : Option Task) : optOr none b = b := rfl

theorem optOr_some (t : Task) (b : Option Task) : optOr (some t) b = some t := rfl

theorem optOr_none_right (a : Option Task) : optOr a none = a := by
  cases a <;> rfl

theorem optOr_self_assoc (a b : Option Task) : optOr a (optOr a b) = optOr a b := by
  cases a <;> rfl

theorem optOr_eq_none_iff (a b : Option Task) :
    optOr a b = none ↔ a = none ∧ b = none := by
  cases a <;> simp [optOr]

theorem foldl_lastId (ts : List Task) (i : String) (a : Option Task) :
    ts.foldl (fun acc t => if t.id = i then some t else acc) a
      = optOr (lastId ts i) a := by
  induction ts generalizing a with
  | nil => rfl
  | cons t ts ih =>
    have h1 : lastId (t :: ts) i
        = optOr (lastId ts i) (if t.id = i then some t else none) := by
      simpa [lastId] using ih (if t.id = i then some t else none)
    rw [List.foldl_cons, ih, h1]
    cases lastId ts i <;> by_cases h : t.id = i <;> simp [optOr, h]

theorem lastId_cons (t : Task) (ts : List Task) (i : String) :
    lastId (t :: ts) i = optOr (lastId ts i) (if t.id = i then some t else none) := by
  simpa [lastId] using foldl_lastId ts i (if t.id = i then some t else none)

theorem lastId_append (xs ys : List Task) (i : String) :
    lastId (xs ++ ys) i = optOr (lastId ys i) (lastId xs i) := by
  simp only [lastId, List.foldl_append]
  exact foldl_lastId ys i _

theorem lastId_eq_none_iff (ts : List Task) (i : String) :
    lastId ts i = none ↔ ∀ t ∈ ts, t.id ≠ i := by
  induction ts with
  | nil => simp [lastId]
  | cons t ts ih =>
    rw [lastId_cons, optOr_eq_none_iff]
    by_cases h : t.id = i <;> simp [h, ih]

theorem lastId_mem (ts : List Task) (i : String) (t : Task)
    (h : lastId ts i = some t) : t ∈ ts ∧ t.id = i := by
  induction ts with
  | nil => simp [lastId] at h
  | cons u ts ih =>
    rw [lastId_cons] at h
    cases hl : lastId ts i with
    | some v =>
      rw [hl, optOr_some] at h
      obtain rfl : v = t := by simpa using h
      obtain ⟨hm, hi⟩ := ih hl
      exact ⟨List.mem_cons_of_mem u hm, hi⟩
    | none =>
      rw [hl, optOr_none] at h
      by_cases hu : u.id = i
      · rw [if_pos hu] at h
        obtain rfl : u = t := by simpa using h
        exact ⟨List.mem_cons_self u ts, hu⟩
      · rw [if_neg hu] at h
        simp at h

/-! ### `findId` facts -/

theorem findId_cons (t : Task) (m : List Task) (i : String) :
    findId (t :: m) i = if t.id = i then some t else findId m i := by
  by_cases h : t.id = i <;> simp [findId, List.find?_cons, h]

theorem findId_append (xs ys : List Task) (i : String) :
    findId (xs ++ ys) i = optOr (findId xs i) (findId ys i) := by
  induction xs with
  | nil => simp [findId, optOr]
  | cons x xs ih =>
    rw [List.cons_append, findId_cons, findId_cons]
    by_cases h : x.id = i <;> simp [h, ih, optOr]

theorem findId_eq_none_iff (m : List Task) (i : String) :
    findId m i = none ↔ ∀ t ∈ m, t.id ≠ i := by
  simp [findId, List.find?_eq_none]

theorem findId_mem (m : List Task) (i : String) (t : Task)
    (h : findId m i = some t) : t ∈ m ∧ t.id = i := by
  refine ⟨List.mem_of_find?_eq_some h, ?_⟩
  have := List.find?_some h
  simpa using this

/-! ### `mapSet` and `buildMap` facts -/

theorem findId_replace_eq (m : List Task) (t : Task)
    (hex : ∃ u ∈ m, u.id = t.id) :
    findId (m.map (fun u => if u.id = t.id then t else u)) t.id = some t := by
  induction m with
  | nil => simp at hex
  | cons u m ih =>
    simp only [List.map_cons]
    by_cases hu : u.id = t.id
    · rw [if_pos hu, findId_cons, if_pos rfl]
    · rw [if_neg hu, findId_cons, if_neg hu]
      apply ih
      rcases hex with ⟨v, hv, hvid⟩
      rcases List.mem_cons.mp hv with rfl | hvm
      · exact absurd hvid hu
      · exact ⟨v, hvm, hvid⟩

theorem findId_replace_ne (m : List Task) (t : Task) (i : String)
    (hne : t.id ≠ i) :
    findId (m.map (fun u => if u.id = t.id then t else u)) i = findId m i := by
  induction m with
  | nil => rfl
  | cons u m ih =>
    simp only [List.map_cons]
    by_cases hu : u.id = t.id
    · rw [if_pos hu, findId_cons, findId_cons, if_neg hne, if_neg (hu ▸ hne)]
      exact ih
    · rw [if_neg hu, findId_cons, findId_cons]
      by_cases hui : u.id = i <;> simp [hui, ih]

theorem findId_mapSet (m : List Task) (t : Task) (i : String) :
    findId (mapSet m t) i = if t.id = i then some t else findId m i := by
  unfold mapSet
  by_cases hex : ∃ u ∈ m, u.id = t.id
  · rw [if_pos hex]
    by_cases hti : t.id = i
    · rw [if_pos hti, ← hti]
      exact findId_replace_eq m t hex
    · rw [if_neg hti]
      exact findId_replace_ne m t i hti
  · rw [if_neg hex]
    push_neg at hex
    rw [findId_append]
    by_cases hti : t.id = i
    · have hm : findId m i = none :=
        (findId_eq_none_iff m i).mpr (fun u hu hui => hex u hu (hui.trans hti.symm))
      rw [hm, optOr_none, findId_cons, if_pos hti]
      rw [if_pos hti]
    · have ht : findId [t] i = none := by
        rw [findId_cons, if_neg hti]
        rfl
      rw [ht, optOr_none_right]
      simp [hti]

theorem idsNodup_mapSet (m : List Task) (t : Task) (h : IdsNodup m) :
    IdsNodup (mapSet m t) := by
  unfold mapSet
  have hid : ∀ u : Task, ((if u.id = t.id then t else u) : Task).id = u.id := by
    intro u
    by_cases hu : u.id = t.id <;> simp [hu]
  by_cases hex : ∃ u ∈ m, u.id = t.id
  · rw [if_pos hex]
    unfold IdsNodup at h ⊢
    rw [List.pairwise_map]
    exact h.imp (fun {a b} hab => by simpa [hid] using hab)
  · rw [if_neg hex]
    push_neg at hex
    unfold IdsNodup at h ⊢
    rw [List.pairwise_append]
    refine ⟨h, List.pairwise_singleton _ _, ?_⟩
    intro a ha b hb
    rcases List.mem_singleton.mp hb with rfl
    exact hex a ha

theorem idsNodup_foldl (ts : List Task) (m : List Task) (h : IdsNodup m) :
    IdsNodup (ts.foldl mapSet m) := by
  induction ts generalizing m with
  | nil => exact h
  | cons t ts ih => exact ih _ (idsNodup_mapSet m t h)

theorem idsNodup_buildMap (ts : List Task) : IdsNodup (buildMap ts) :=
  idsNodup_foldl ts [] List.Pairwise.nil

theorem findId_foldl (ts : List Task) (m : List Task) (i : String) :
    findId (ts.foldl mapSet m) i = optOr (lastId ts i) (findId m i) := by
  induction ts generalizing m with
  | nil => rfl
  | cons t ts ih =>
    rw [List.foldl_cons, ih, findId_mapSet, lastId_cons]
    cases lastId ts i <;> by_cases ht : t.id = i <;> simp [optOr, ht]

theorem findId_buildMap (ts : List Task) (i : String) :
    findId (buildMap ts) i = lastId ts i := by
  unfold buildMap
  rw [findId_foldl]
  exact optOr_none_right _

theorem mem_iff_findId (m : List Task) (t : Task) (h : IdsNodup m) :
    t ∈ m ↔ findId m t.id = some t := by
  induction m with
  | nil => simp [findId]
  | cons u m ih =>
    rcases List.pairwise_cons.mp h with ⟨hu, hm⟩
    rw [findId_cons]
    by_cases huid : u.id = t.id
    · rw [if_pos huid]
      constructor
      · intro hmem
        rcases List.mem_cons.mp hmem with rfl | hmem
        · rfl
        · exact absurd huid (hu t hmem)
      · intro hsome
        obtain rfl : u = t := by simpa using hsome
        exact List.mem_cons_self u m
    · rw [if_neg huid, List.mem_cons, ih hm]
      constructor
      · rintro (rfl | hf)
        · exact absurd rfl huid
        · exact hf
      · exact Or.inr

/-! ### Sorting facts -/

theorem sortById_perm (l : List Task) : (sortById l).Perm l :=
  List.perm_insertionSort taskIdLE l

theorem sortById_sorted (l : List Task) : List.Sorted taskIdLE (sortById l) :=
  List.sorted_insertionSort taskIdLE l

theorem idsNodup_perm {l l' : List Task} (h : l.Perm l') (hn : IdsNodup l) :
    IdsNodup l' :=
  (List.Perm.pairwise_iff (fun hab => Ne.symm hab) h).mp hn

theorem sorted_taskIdLT (l : List Task) (hs : List.Sorted taskIdLE l)
    (hn : IdsNodup l) : List.Sorted taskIdLT l := by
  have h := List.Pairwise.and hs hn
  exact h.imp (fun {a b} hab => lt_of_le_of_ne hab.1 hab.2)

theorem eq_of_perm_sorted_nodup {l1 l2 : List Task} (hp : l1.Perm l2)
    (hs1 : List.Sorted taskIdLE l1) (hs2 : List.Sorted taskIdLE l2)
    (hn1 : IdsNodup l1) (hn2 : IdsNodup l2) : l1 = l2 :=
  List.eq_of_perm_of_sorted hp (sorted_taskIdLT l1 hs1 hn1)
    (sorted_taskIdLT l2 hs2 hn2)

/-! ### The merge seen through `lastId` -/

theorem merge_core_eq (l1 l2 : List Task)
    (h : ∀ i, lastId l1 i = lastId l2 i) :
    sortById (buildMap l1) = sortById (buildMap l2) := by
  have hn1 := idsNodup_buildMap l1
  have hn2 := idsNodup_buildMap l2
  have hmem : ∀ t, t ∈ buildMap l1 ↔ t ∈ buildMap l2 := by
    intro t
    rw [mem_iff_findId _ _ hn1, mem_iff_findId _ _ hn2, findId_buildMap,
      findId_buildMap, h]
  have hnod1 : (buildMap l1).Nodup := hn1.imp (fun hab => ne_of_apply_ne Task.id hab)
  have hnod2 : (buildMap l2).Nodup := hn2.imp (fun hab => ne_of_apply_ne Task.id hab)
  have hperm : (buildMap l1).Perm (buildMap l2) :=
    (List.perm_ext_iff_of_nodup hnod1 hnod2).mpr hmem
  have hp : (sortById (buildMap l1)).Perm (sortById (buildMap l2)) :=
    ((sortById_perm _).trans hperm).trans (sortById_perm _).symm
  exact eq_of_perm_sorted_nodup hp (sortById_sorted _) (sortById_sorted _)
    (idsNodup_perm (sortById_perm _).symm hn1)
    (idsNodup_perm (sortById_perm _).symm hn2)

theorem mergeTaskLists_eq_core (loc rem : List Task) :
    mergeTaskLists loc rem = sortById (buildMap (loc ++ rem)) := by
  unfold mergeTaskLists buildMap
  rw [List.foldl_append]

theorem lastId_eq_findId (m : List Task) (i : String) (h : IdsNodup m) :
    lastId m i = findId m i := by
  induction m with
  | nil => rfl
  | cons t m ih =>
    rcases List.pairwise_cons.mp h with ⟨ht, hm⟩
    rw [lastId_cons, findId_cons, ih hm]
    by_cases hti : t.id = i
    · rw [if_pos hti, if_pos hti]
      have hnone : findId m i = none :=
        (findId_eq_none_iff m i).mpr
          (fun u hu hui => ht u hu (hti.trans hui.symm))
      rw [hnone, optOr_none]
    · rw [if_neg hti, if_neg hti]
      exact optOr_none_right _

theorem lastId_perm {m m' : List Task} (hp : m.Perm m') (h : IdsNodup m)
    (i : String) : lastId m i = lastId m' i := by
  have h' := idsNodup_perm hp h
  rw [lastId_eq_findId m i h, lastId_eq_findId m' i h']
  cases hf : findId m i with
  | none =>
    symm
    rw [findId_eq_none_iff] at hf ⊢
    exact fun t ht => hf t (hp.symm.subset ht)
  | some t =>
    obtain ⟨hmem, hid⟩ := findId_mem m i t hf
    symm
    rw [← hid]
    exact (mem_iff_findId m' t h').mp (hp.subset hmem)

theorem lastId_sortById_buildMap (l : List Task) (i : String) :
    lastId (sortById (buildMap l)) i = lastId l i := by
  rw [lastId_perm (sortById_perm (buildMap l))
    (idsNodup_perm (sortById_perm _).symm (idsNodup_buildMap _)) i]
  rw [lastId_eq_findId _ _ (idsNodup_buildMap _), findId_buildMap]

theorem lastId_mergeTaskLists (loc rem : List Task) (i : String) :
    lastId (mergeTaskLists loc rem) i = lastId (loc ++ rem) i := by
  rw [mergeTaskLists_eq_core]
  exact lastId_sortById_buildMap _ _

/-! ### Counting helpers for the no-task-lost property -/

theorem countP_eq_of_idsNodup (m : List Task) (i : String) (h : IdsNodup m) :
    m.countP (fun t => decide (t.id = i)) = if ∃ t ∈ m, t.id = i then 1 else 0 := by
  induction m with
  | nil => simp
  | cons t m ih =>
    rcases List.pairwise_cons.mp h with ⟨ht, hm⟩
    rw [List.countP_cons, ih hm]
    by_cases hti : t.id = i
    · have hz : ¬ ∃ u ∈ m, u.id = i := by
        rintro ⟨u, hu, hui⟩
        exact ht u hu (hti.trans hui.symm)
      simp [hz, hti]
    · simp [hti]

theorem exists_id_iff_findId (m : List Task) (i : String) :
    (∃ t ∈ m, t.id = i) ↔ findId m i ≠ none := by
  rw [Ne, findId_eq_none_iff]
  push_neg
  rfl

/-! ### Merge claim theorems -/

/-- C2: merge is idempotent — re-applying the same remote update leaves the
merged document unchanged: `mergeTaskLists (mergeTaskLists doc A) A =
mergeTaskLists doc A` for all task lists `doc` and `A`. -/
theorem mergeTaskLists_idempotent (doc A : List Task) :
    mergeTaskLists (mergeTaskLists doc A) A = mergeTaskLists doc A := by
  rw [mergeTaskLists_eq_core (mergeTaskLists doc A) A,
    mergeTaskLists_eq_core doc A]
  apply merge_core_eq
  intro i
  rw [lastId_append, lastId_sortById_buildMap, lastId_append]
  exact optOr_self_assoc _ _

/-- C1 counterexample: merging two concurrent updates that carry the same task
id with different `done` values is order-dependent — remote always overwrites
local, so whichever update is merged second wins. With the base document empty,
update A carrying the task done and update B carrying it not done, the two
merge orders disagree. -/
theorem mergeTaskLists_not_commutative :
    mergeTaskLists (mergeTaskLists [] [⟨"a", "t", false⟩]) [⟨"a", "t", true⟩] ≠
    mergeTaskLists (mergeTaskLists [] [⟨"a", "t", true⟩]) [⟨"a", "t", false⟩] := by
  decide

/-- C1 (amended): merge is commutative for updates that agree on shared ids —
whenever every task id occurring in both updates A and B carries the same
record in both, merging A then B equals merging B then A. (The unrestricted
claim fails: see the counterexample — on a shared id with differing fields the
update merged second wins.) -/
theorem mergeTaskLists_comm_of_agree (doc A B : List Task)
    (h : ∀ a ∈ A, ∀ b ∈ B, a.id = b.id → a = b) :
    mergeTaskLists (mergeTaskLists doc A) B
      = mergeTaskLists (mergeTaskLists doc B) A := by
  rw [mergeTaskLists_eq_core (mergeTaskLists doc A) B,
    mergeTaskLists_eq_core (mergeTaskLists doc B) A]
  apply merge_core_eq
  intro i
  rw [lastId_append, lastId_append, lastId_mergeTaskLists,
    lastId_mergeTaskLists, lastId_append, lastId_append]
  cases hA : lastId A i with
  | none => cases lastId B i <;> simp [optOr]
  | some a =>
    cases hB : lastId B i with
    | none => simp [optOr]
    | some b =>
      obtain ⟨haA, haid⟩ := lastId_mem A i a hA
      obtain ⟨hbB, hbid⟩ := lastId_mem B i b hB
      obtain rfl : a = b := h a haA b hbB (haid.trans hbid.symm)
      simp [optOr]

/-- Witness for the amended C1 at a concrete input: two singleton updates with
distinct ids (so they agree on shared ids vacuously) merge the same in either
order. -/
theorem mergeTaskLists_comm_witness :
    (∀ a ∈ ([⟨"a", "x", false⟩] : List Task),
      ∀ b ∈ ([⟨"b", "y", false⟩] : List Task), a.id = b.id → a = b) ∧
    mergeTaskLists (mergeTaskLists [] [⟨"a", "x", false⟩]) [⟨"b", "y", false⟩]
      = mergeTaskLists (mergeTaskLists [] [⟨"b", "y", false⟩]) [⟨"a", "x", false⟩] :=
  ⟨by decide, mergeTaskLists_comm_of_agree [] [⟨"a", "x", false⟩]
    [⟨"b", "y", false⟩] (by decide)⟩

theorem mergeTaskLists_countP (loc rem : List Task) (i : String) :
    (mergeTaskLists loc rem).countP (fun t => decide (t.id = i))
      = if (∃ t ∈ loc, t.id = i) ∨ (∃ t ∈ rem, t.id = i) then 1 else 0 := by
  rw [mergeTaskLists_eq_core]
  rw [(sortById_perm (buildMap (loc ++ rem))).countP_eq]
  rw [countP_eq_of_idsNodup _ i (idsNodup_buildMap _)]
  have hiff : (∃ t ∈ buildMap (loc ++ rem), t.id = i)
      ↔ (∃ t ∈ loc, t.id = i) ∨ (∃ t ∈ rem, t.id = i) := by
    rw [exists_id_iff_findId, findId_buildMap, Ne, lastId_eq_none_iff]
    push_neg
    constructor
    · rintro ⟨t, ht, hti⟩
      rcases List.mem_append.mp ht with hl | hr
      · exact Or.inl ⟨t, hl, hti⟩
      · exact Or.inr ⟨t, hr, hti⟩
    · rintro (⟨t, ht, hti⟩ | ⟨t, ht, hti⟩)
      · exact ⟨t, List.mem_append.mpr (Or.inl ht), hti⟩
      · exact ⟨t, List.mem_append.mpr (Or.inr ht), hti⟩
  rw [if_congr hiff rfl rfl]

/-- C3: merge never loses or invents a task — for every id occurring in the
local or the remote list the merged list holds exactly one record with that
id, and an id occurring in neither input occurs zero times in the result. -/
theorem mergeTaskLists_id_counts (loc rem : List Task) (i : String) :
    (mergeTaskLists loc rem).countP (fun t => decide (t.id = i))
      = if (∃ t ∈ loc, t.id = i) ∨ (∃ t ∈ rem, t.id = i) then 1 else 0 :=
  mergeTaskLists_countP loc rem i

/-! ### Toggle facts -/

theorem toggleTask_noop (ts : List Task) (i : String)
    (h : ∀ t ∈ ts, t.id ≠ i) : toggleTask ts i = ts := by
  unfold toggleTask
  have h2 : ∀ t ∈ ts,
      (fun t : Task => if t.id = i then { t with done := !t.done } else t) t
        = id t := fun t ht => by simp [h t ht]
  rw [List.map_congr_left h2, List.map_id]

theorem toggleTask_toggleTask (l : List Task) (i : String) :
    toggleTask (toggleTask l i) i = l := by
  unfold toggleTask
  rw [List.map_map]
  have h : ∀ t ∈ l,
      ((fun t : Task => if t.id = i then { t with done := !t.done } else t) ∘
        (fun t : Task => if t.id = i then { t with done := !t.done } else t)) t
        = id t := by
    rintro ⟨tid, ttext, tdone⟩ _
    by_cases ht : tid = i
    · subst ht
      simp [Function.comp]
    · simp [Function.comp, ht]
  rw [List.map_congr_left h, List.map_id]

theorem idsNodup_toggleTask (ts : List Task) (i : String) (h : IdsNodup ts) :
    IdsNodup (toggleTask ts i) := by
  unfold IdsNodup at h ⊢
  unfold toggleTask
  rw [List.pairwise_map]
  refine h.imp (fun {a b} hab => ?_)
  by_cases ha : a.id = i <;> by_cases hb : b.id = i <;> simpa [ha, hb] using hab

theorem yjsToggleTask_eq_toggleTask (ts : List Task) (i : String)
    (hnd : IdsNodup ts) : yjsToggleTask ts i = toggleTask ts i := by
  induction ts with
  | nil => rfl
  | cons t ts ih =>
    rcases List.pairwise_cons.mp hnd with ⟨ht, hts⟩
    by_cases hti : t.id = i
    · have hrest : ∀ u ∈ ts, u.id ≠ i :=
        fun u hu hui => ht u hu (hti.trans hui.symm)
      have h1 : yjsToggleTask (t :: ts) i = { t with done := !t.done } :: ts := by
        unfold yjsToggleTask
        rw [List.findIdx?_cons, if_pos (by simp [hti])]
        simp
      have h2 : toggleTask (t :: ts) i = { t with done := !t.done } :: ts := by
        unfold toggleTask
        rw [List.map_cons, if_pos hti]
        congr 1
        exact toggleTask_noop ts i hrest
      rw [h1, h2]
    · have h2 : toggleTask (t :: ts) i = t :: toggleTask ts i := by
        unfold toggleTask
        rw [List.map_cons, if_neg hti]
      have h1 : yjsToggleTask (t :: ts) i = t :: yjsToggleTask ts i := by
        unfold yjsToggleTask
        rw [List.findIdx?_cons, if_neg (by simp [hti]), List.findIdx?_start_succ]
        cases hf : ts.findIdx? (fun u => decide (u.id = i)) with
        | none => simp [hf]
        | some idx =>
          simp only [hf, Option.map_some]
          cases hg : ts[idx]? with
          | none => simp [hg]
          | some u => simp [hg, List.set_cons_succ]
      rw [h1, h2, ih hts]

theorem yjsToggleTask_toggleTwice (ts : List Task) (i : String)
    (hnd : IdsNodup ts) : yjsToggleTask (yjsToggleTask ts i) i = ts := by
  rw [yjsToggleTask_eq_toggleTask ts i hnd,
    yjsToggleTask_eq_toggleTask (toggleTask ts i) i (idsNodup_toggleTask ts i hnd)]
  exact toggleTask_toggleTask ts i

/-! ### addTask and toggle claim theorems -/

/-- C4 counterexample: in the Y.js hook, calling `addTask` with no document
attached (`ytasksRef.current` is null — e.g. before any `connect`, a state with
no active transport or connection) appends nothing: the rendered document stays
empty instead of gaining one new record, so `addTask` does not always succeed
locally in that implementation. -/
theorem yjsAddTask_disconnected_noop :
    ¬ ∃ t : Task, yjsDocTasks (yjsAddTask none "u1" "hello")
      = yjsDocTasks none ++ [t] := by
  rintro ⟨t, ht⟩
  simp [yjsAddTask, yjsDocTasks] at ht

/-- C4 (amended): `addTask` of the direct-P2P hook unconditionally appends
exactly one record with `done = false` and the given text — keeping every prior
task and, when the generated uuid does not collide with an existing id (the
random generator makes a collision merely improbable, not impossible), the new
record's id is fresh. The Y.js hook's `addTask` behaves the same way only once
a document is attached; with no attached document (no connection) it is a
no-op, contrary to the original claim. -/
theorem addTask_appends (tasks : List Task) (newId text : String)
    (hfresh : ∀ t ∈ tasks, t.id ≠ newId) :
    (addTask tasks newId text).length = tasks.length + 1 ∧
    (addTask tasks newId text).take tasks.length = tasks ∧
    (∃ t : Task, addTask tasks newId text = tasks ++ [t] ∧ t.done = false ∧
      t.text = text ∧ t.id = newId ∧ t.id ∉ tasks.map Task.id) ∧
    (∀ ts : List Task, yjsAddTask (some ts) newId text
      = some (addTask ts newId text)) ∧
    yjsAddTask none newId text = none := by
  refine ⟨by simp [addTask], by simp [addTask, List.take_left], ?_, fun ts => rfl, rfl⟩
  refine ⟨{ id := newId, text := text, done := false }, rfl, rfl, rfl, rfl, ?_⟩
  simp only [List.mem_map]
  rintro ⟨u, hu, huid⟩
  exact hfresh u hu huid

/-- Witness for the amended C4 at a concrete input: adding to a one-task list
whose id differs from the generated uuid. -/
theorem addTask_appends_witness :
    (∀ t ∈ ([⟨"a", "x", false⟩] : List Task), t.id ≠ "b") ∧
    ((addTask [⟨"a", "x", false⟩] "b" "y").length = 1 + 1 ∧
    (addTask [⟨"a", "x", false⟩] "b" "y").take 1 = [⟨"a", "x", false⟩] ∧
    (∃ t : Task, addTask [⟨"a", "x", false⟩] "b" "y" = [⟨"a", "x", false⟩] ++ [t] ∧
      t.done = false ∧ t.text = "y" ∧ t.id = "b" ∧
      t.id ∉ ([⟨"a", "x", false⟩] : List Task).map Task.id) ∧
    (∀ ts : List Task, yjsAddTask (some ts) "b" "y"
      = some (addTask ts "b" "y")) ∧
    yjsAddTask none "b" "y" = none) :=
  ⟨by decide, addTask_appends [⟨"a", "x", false⟩] "b" "y" (by decide)⟩

/-- C5: toggle is a pure flip — on a document (pairwise distinct ids)
containing a task with the given id, toggling twice restores the document in
both implementations, the two implementations toggle identically, and a single
toggle changes exactly the `done` field of the matching task, leaving ids,
texts, positions and all other records untouched. -/
theorem toggleTask_pure_flip (ts : List Task) (i : String)
    (hnd : IdsNodup ts) (hmem : ∃ t ∈ ts, t.id = i) :
    toggleTask (toggleTask ts i) i = ts ∧
    yjsToggleTask (yjsToggleTask ts i) i = ts ∧
    yjsToggleTask ts i = toggleTask ts i ∧
    (toggleTask ts i).length = ts.length ∧
    (∀ (p : Nat) (hp : p < ts.length) (hq : p < (toggleTask ts i).length),
      (toggleTask ts i)[p].id = ts[p].id ∧
      (toggleTask ts i)[p].text = ts[p].text ∧
      (toggleTask ts i)[p].done =
        (if ts[p].id = i then !ts[p].done else ts[p].done)) := by
  refine ⟨toggleTask_toggleTask ts i, yjsToggleTask_toggleTwice ts i hnd,
    yjsToggleTask_eq_toggleTask ts i hnd, by simp [toggleTask], ?_⟩
  intro p hp hq
  unfold toggleTask
  simp only [List.getElem_map]
  by_cases h : ts[p].id = i <;> simp [h]

/-- Witness for C5 at a concrete input: a two-task document, toggling the
first task. -/
theorem toggleTask_pure_flip_witness :
    (IdsNodup [⟨"a", "x", false⟩, ⟨"b", "y", true⟩] ∧
      ∃ t ∈ ([⟨"a", "x", false⟩, ⟨"b", "y", true⟩] : List Task), t.id = "a") ∧
    toggleTask (toggleTask [⟨"a", "x", false⟩, ⟨"b", "y", true⟩] "a") "a"
      = [⟨"a", "x", false⟩, ⟨"b", "y", true⟩] :=
  ⟨⟨by decide, by decide⟩,
    (toggleTask_pure_flip [⟨"a", "x", false⟩, ⟨"b", "y", true⟩] "a"
      (by decide) (by decide)).1⟩

/-- C6: toggling an id absent from the document is a safe no-op in both
implementations — the resulting list is the prior one, unchanged (and, both
functions being total, no exception is possible). -/
theorem toggleTask_unknown_noop (ts : List Task) (i : String)
    (h : ∀ t ∈ ts, t.id ≠ i) :
    toggleTask ts i = ts ∧ yjsToggleTask ts i = ts := by
  refine ⟨toggleTask_noop ts i h, ?_⟩
  unfold yjsToggleTask
  have hnone : ts.findIdx? (fun t => decide (t.id = i)) = none := by
    rw [List.findIdx?_eq_none_iff]
    intro u hu
    simpa using h u hu
  rw [hnone]

/-- Witness for C6 at a concrete input: toggling an unknown id on a one-task
document. -/
theorem toggleTask_unknown_noop_witness :
    (∀ t ∈ ([⟨"a", "x", false⟩] : List Task), t.id ≠ "zzz") ∧
    (toggleTask [⟨"a", "x", false⟩] "zzz" = [⟨"a", "x", false⟩] ∧
      yjsToggleTask [⟨"a", "x", false⟩] "zzz" = [⟨"a", "x", false⟩]) :=
  ⟨by decide, toggleTask_unknown_noop [⟨"a", "x", false⟩] "zzz" (by decide)⟩

/-! ### Relay facts -/

theorem lookupRoom_filter_ne (st : List (String × List Conn)) (roomId : String) :
    lookupRoom (st.filter (fun e => decide (e.1 ≠ roomId))) roomId = none := by
  unfold lookupRoom
  have hnone : (st.filter (fun e => decide (e.1 ≠ roomId))).find?
      (fun e => decide (e.1 = roomId)) = none := by
    rw [List.find?_eq_none]
    intro e he
    have := (List.mem_filter.mp he).2
    simp at this ⊢
    exact this
  rw [hnone]
  rfl

theorem lookupRoom_update (st : List (String × List Conn)) (roomId : String)
    (v : List Conn) :
    lookupRoom (st.map (fun e => if e.1 = roomId then (roomId, v) else e)) roomId
      = (lookupRoom st roomId).map (fun _ => v) := by
  induction st with
  | nil => rfl
  | cons e st ih =>
    by_cases he : e.1 = roomId
    · simp [lookupRoom, he]
    · simp only [List.map_cons, if_neg he]
      unfold lookupRoom at ih ⊢
      rw [List.find?_cons_of_neg _ (by simp [he]),
        List.find?_cons_of_neg _ (by simp [he])]
      exact ih

/-- C7: relay broadcast is verbatim, sender-excluded and session-isolated —
a pair (recipient, data) is delivered by the message handler exactly when the
data is the inbound payload unchanged, the recipient is not the sending
connection, the recipient is open, and the recipient is registered in the same
room as the sender; in particular no connection outside that room's set (e.g.
one registered only under another session id) ever receives the payload. -/
theorem relay_broadcast_spec (st : List (String × List Conn)) (roomId : String)
    (server : Conn) (payload : String) (d : Conn) (p : String) :
    (d, p) ∈ handleMessage st roomId server payload ↔
      (p = payload ∧ d ≠ server ∧ d.readyState = 1 ∧ d ∈ roomConns st roomId) := by
  unfold handleMessage roomConns
  cases h : lookupRoom st roomId with
  | none => simp
  | some conns =>
    simp only [List.mem_map, List.mem_filter, Bool.and_eq_true,
      decide_eq_true_eq, Option.getD_some]
    constructor
    · rintro ⟨ws, ⟨hmem, hne, hrs⟩, heq⟩
      obtain ⟨rfl, rfl⟩ := Prod.mk.injEq ws payload d p |>.mp heq
      exact ⟨rfl, hne, hrs, hmem⟩
    · rintro ⟨rfl, hne, hrs, hmem⟩
      exact ⟨d, ⟨hmem, hne, hrs⟩, rfl⟩

theorem handleClose_of_none (st : List (String × List Conn)) (roomId : String)
    (server : Conn) (h : lookupRoom st roomId = none) :
    handleClose st roomId server = st := by
  unfold handleClose
  rw [h]

theorem handleClose_of_empty (st : List (String × List Conn)) (roomId : String)
    (server : Conn) (conns : List Conn) (h : lookupRoom st roomId = some conns)
    (hemp : (conns.filter (fun ws => decide (ws ≠ server))).isEmpty = true) :
    handleClose st roomId server = st.filter (fun e => decide (e.1 ≠ roomId)) := by
  unfold handleClose
  rw [h]
  dsimp only
  rw [if_pos hemp]

theorem handleClose_of_nonempty (st : List (String × List Conn))
    (roomId : String) (server : Conn) (conns : List Conn)
    (h : lookupRoom st roomId = some conns)
    (hemp : ¬ (conns.filter (fun ws => decide (ws ≠ server))).isEmpty = true) :
    handleClose st roomId server = st.map (fun e =>
      if e.1 = roomId
      then (roomId, conns.filter (fun ws => decide (ws ≠ server))) else e) := by
  unfold handleClose
  rw [h]
  dsimp only
  rw [if_neg hemp]

/-- C8: closing a connection cleans up the relay's topology state — after the
close handler runs, the closed connection is no longer in its room's
connection set; if the set thereby becomes empty the room's entry is removed
from the room map entirely, and otherwise the room keeps exactly the remaining
connections. -/
theorem relay_close_cleanup (st : List (String × List Conn)) (roomId : String)
    (server : Conn) :
    server ∉ roomConns (handleClose st roomId server) roomId ∧
    ((roomConns st roomId).filter (fun ws => decide (ws ≠ server)) = [] →
      lookupRoom (handleClose st roomId server) roomId = none) ∧
    ((roomConns st roomId).filter (fun ws => decide (ws ≠ server)) ≠ [] →
      roomConns (handleClose st roomId server) roomId
        = (roomConns st roomId).filter (fun ws => decide (ws ≠ server))) := by
  cases h : lookupRoom st roomId with
  | none =>
    have hr : roomConns st roomId = [] := by simp [roomConns, h]
    rw [handleClose_of_none st roomId server h]
    exact ⟨by simp [roomConns, h], fun _ => h,
      fun hne => absurd (by rw [hr]; rfl) hne⟩
  | some conns =>
    have hr : roomConns st roomId = conns := by simp [roomConns, h]
    by_cases hemp : (conns.filter (fun ws => decide (ws ≠ server))).isEmpty = true
    · rw [handleClose_of_empty st roomId server conns h hemp]
      have hnone := lookupRoom_filter_ne st roomId
      refine ⟨by unfold roomConns; rw [hnone]; simp, fun _ => hnone, fun hne => ?_⟩
      rw [hr] at hne
      exact absurd (List.isEmpty_iff.mp hemp) hne
    · rw [handleClose_of_nonempty st roomId server conns h hemp]
      have hupd := lookupRoom_update st roomId
        (conns.filter (fun ws => decide (ws ≠ server)))
      have hconns : roomConns (st.map (fun e =>
          if e.1 = roomId
          then (roomId, conns.filter (fun ws => decide (ws ≠ server))) else e))
          roomId = conns.filter (fun ws => decide (ws ≠ server)) := by
        rw [roomConns, hupd, h]
        rfl
      refine ⟨?_, fun hcontra => ?_, fun _ => by rw [hconns, hr]⟩
      · rw [hconns]
        intro hmem
        have := (List.mem_filter.mp hmem).2
        simp at this
      · rw [hr] at hcontra
        exact absurd (List.isEmpty_iff.mpr hcontra) hemp

/-! ### Connect failure (C9) -/

/-- C9 counterexample: with both Discovery calls failing, `connect` still
ends in state `connected` (as self-appointed host) — not in `connecting` or
`reconnecting` as the claim requires, and not `disconnected` either: the
signaling helpers swallow their errors, so `connect`'s catch block never fires
and the failure is silently masked. -/
theorem connect_discovery_failure_counterexample :
    ((connectRun false false "192.168.0.2" []).trace.getLast?).map Prod.fst
        = some ConnectionState.connected ∧
    ((connectRun false false "192.168.0.2" []).trace.getLast?).map Prod.fst
        ≠ some ConnectionState.connecting ∧
    ((connectRun false false "192.168.0.2" []).trace.getLast?).map Prod.fst
        ≠ some ConnectionState.reconnecting := by
  refine ⟨rfl, ?_, ?_⟩ <;> decide

/-- C9 (amended): a Discovery failure during `connect` does not leave the
session in `connecting`/`reconnecting` — nor in `disconnected`:
`registerPeer` and `discoverPeers` catch their own errors (resolving with
null resp. the empty list, never rejecting), so `connect`'s catch block is
unreachable from them and the hook always ends `connected`. A failed
discovery is indistinguishable from an empty room: the replica appoints
itself host (peer count 1, host status message) and installs the 3-second
sync interval, which keeps re-attempting discovery; the outcome is entirely
independent of whether registration succeeded, since `connect` discards
`registerPeer`'s result. The Y.js hook's connection-error handler, by
contrast, reports `disconnected`. -/
theorem connect_discovery_failure_masked (registerOk discoverOk : Bool)
    (registeredIP : String) (peers : List String)
    (h : registerOk = false ∨ discoverOk = false) :
    (connectRun registerOk discoverOk registeredIP peers).trace.map Prod.fst
        = [ConnectionState.disconnected, ConnectionState.connecting,
           ConnectionState.connected] ∧
    (connectRun registerOk discoverOk registeredIP peers).syncIntervalInstalled
        = true ∧
    connectRun registerOk discoverOk registeredIP peers
        = connectRun true discoverOk registeredIP peers ∧
    (discoverOk = false →
      (connectRun registerOk discoverOk registeredIP peers).isHost = true ∧
      (connectRun registerOk discoverOk registeredIP peers).connectedUsers = 1 ∧
      (connectRun registerOk discoverOk registeredIP peers).trace.getLast?
        = some (ConnectionState.connected,
            "Connected as host! 🎉 Waiting for others...")) ∧
    yjsConnectionErrorOutcome.1 = ConnectionState.disconnected := by
  refine ⟨rfl, rfl, rfl, ?_, rfl⟩
  rintro rfl
  refine ⟨?_, ?_, ?_⟩ <;> simp [connectRun, discoverPeers]

/-- Witness for the amended C9 at a concrete input: both Discovery calls
fail. -/
theorem connect_discovery_failure_masked_witness :
    (false = false ∨ false = false) ∧
    ((connectRun false false "192.168.0.2" ["192.168.0.3"]).trace.map Prod.fst
        = [ConnectionState.disconnected, ConnectionState.connecting,
           ConnectionState.connected] ∧
    (connectRun false false "192.168.0.2" ["192.168.0.3"]).syncIntervalInstalled
        = true ∧
    connectRun false false "192.168.0.2" ["192.168.0.3"]
        = connectRun true false "192.168.0.2" ["192.168.0.3"] ∧
    (false = false →
      (connectRun false false "192.168.0.2" ["192.168.0.3"]).isHost = true ∧
      (connectRun false false "192.168.0.2" ["192.168.0.3"]).connectedUsers = 1 ∧
      (connectRun false false "192.168.0.2" ["192.168.0.3"]).trace.getLast?
        = some (ConnectionState.connected,
            "Connected as host! 🎉 Waiting for others...")) ∧
    yjsConnectionErrorOutcome.1 = ConnectionState.disconnected) :=
  ⟨Or.inl rfl,
    connect_discovery_failure_masked false false "192.168.0.2" ["192.168.0.3"]
      (Or.inl rfl)⟩

/-! ### Data-channel message handling (C10) -/

theorem rid_toRaw (t : Task) : (Task.toRaw t).rid = t.id := rfl

theorem rawSet_map_toRaw (m : List Task) (t : Task) :
    rawSet (m.map Task.toRaw) (Task.toRaw t) = (mapSet m t).map Task.toRaw := by
  unfold rawSet mapSet
  have hex : (∃ u ∈ m.map Task.toRaw, u.rid = (Task.toRaw t).rid)
      ↔ ∃ u ∈ m, u.id = t.id := by
    simp [List.mem_map, Task.toRaw]
  by_cases h : ∃ u ∈ m, u.id = t.id
  · rw [if_pos (hex.mpr h), if_pos h, List.map_map, List.map_map]
    apply List.map_congr_left
    intro u _
    by_cases hu : u.id = t.id <;> simp [Function.comp, Task.toRaw, hu]
  · rw [if_neg (fun hc => h (hex.mp hc)), if_neg h, List.map_append]
    rfl

theorem foldl_rawSet_toRaw (ts : List Task) (m : List Task) :
    (ts.map Task.toRaw).foldl rawSet (m.map Task.toRaw)
      = (ts.foldl mapSet m).map Task.toRaw := by
  induction ts generalizing m with
  | nil => rfl
  | cons t ts ih =>
    rw [List.map_cons, List.foldl_cons, List.foldl_cons, rawSet_map_toRaw]
    exact ih (mapSet m t)

theorem orderedInsert_toRaw (t : Task) (l : List Task) :
    List.orderedInsert rawIdLE (Task.toRaw t) (l.map Task.toRaw)
      = (List.orderedInsert taskIdLE t l).map Task.toRaw := by
  induction l with
  | nil => rfl
  | cons u l ih =>
    simp only [List.map_cons, List.orderedInsert]
    by_cases h : t.id ≤ u.id
    · rw [if_pos (show rawIdLE (Task.toRaw t) (Task.toRaw u) from h),
        if_pos (show taskIdLE t u from h), List.map_cons, List.map_cons]
    · rw [if_neg (show ¬ rawIdLE (Task.toRaw t) (Task.toRaw u) from h),
        if_neg (show ¬ taskIdLE t u from h), List.map_cons, ih]

theorem rawSortById_map_toRaw (l : List Task) :
    rawSortById (l.map Task.toRaw) = (sortById l).map Task.toRaw := by
  unfold rawSortById sortById
  induction l with
  | nil => rfl
  | cons t l ih =>
    simp only [List.map_cons, List.insertionSort]
    rw [ih, orderedInsert_toRaw]

theorem rawMergeTaskLists_toRaw (loc ts : List Task) :
    rawMergeTaskLists (loc.map Task.toRaw) (ts.map Task.toRaw)
      = (mergeTaskLists loc ts).map Task.toRaw := by
  unfold rawMergeTaskLists mergeTaskLists
  have h1 := foldl_rawSet_toRaw loc []
  rw [List.map_nil] at h1
  rw [h1, foldl_rawSet_toRaw ts (loc.foldl mapSet []), rawSortById_map_toRaw]

theorem elemsToRaw_taskToElem (ts : List Task) :
    elemsToRaw (ts.map taskToElem) = some (ts.map Task.toRaw) := by
  induction ts with
  | nil => rfl
  | cons t ts ih => simp [taskToElem, elemsToRaw, ih, Task.toRaw]

/-- C10 counterexample: a parseable TASK_SYNC message whose single tasks
element is the object with id "a" and nothing else — no text, no done — is
not dropped: with an empty stored list the handler runs the merge and stores
the malformed record, so a message that is not a well-formed TASK_SYNC
changes the stored task list, contradicting the claim that only well-formed
TASK_SYNC messages cause a replacement. -/
theorem handleDataMessage_malformed_changes :
    handleDataMessage [] (DataMessage.parsed (some (Json.jstr "TASK_SYNC"))
        (TasksVal.arr [RawElem.record "a" []]))
      = [{ rid := "a", fields := [] }] ∧
    ([] : List Task).map Task.toRaw = [] ∧
    ([{ rid := "a", fields := [] }] : List RawTask) ≠ [] := by
  refine ⟨rfl, rfl, by simp⟩

/-- C10 (amended): malformed non-TASK_SYNC traffic is dropped, but TASK_SYNC
traffic is merged unvalidated. Unparseable payloads, null messages, messages
of a different type, and TASK_SYNC messages whose tasks make the handler
throw inside its try (missing/null tasks, a non-array tasks value, a null
element) leave the stored list unchanged — the catch absorbs the TypeError
before `setTasks`. But a TASK_SYNC whose tasks is an array of objects
carrying string ids is merged with no well-formedness check: the raw records,
even ones lacking `text`/`done`, replace the stored list via the id-keyed
last-writer-wins union — only when every element is a complete task record
does this coincide with `mergeTaskLists` on well-formed tasks. -/
theorem handleDataMessage_spec (stored : List Task) (msg : DataMessage) :
    (msg = DataMessage.unparseable →
      handleDataMessage stored msg = stored.map Task.toRaw) ∧
    (msg = DataMessage.nullMsg →
      handleDataMessage stored msg = stored.map Task.toRaw) ∧
    (∀ typeField tasks, msg = DataMessage.parsed typeField tasks →
      isTaskSyncType typeField = false →
      handleDataMessage stored msg = stored.map Task.toRaw) ∧
    (∀ typeField, msg = DataMessage.parsed typeField TasksVal.absent →
      handleDataMessage stored msg = stored.map Task.toRaw) ∧
    (∀ typeField, msg = DataMessage.parsed typeField TasksVal.notArray →
      handleDataMessage stored msg = stored.map Task.toRaw) ∧
    (∀ typeField elems,
      msg = DataMessage.parsed typeField (TasksVal.arr elems) →
      elemsToRaw elems = none →
      handleDataMessage stored msg = stored.map Task.toRaw) ∧
    (∀ typeField elems remote,
      msg = DataMessage.parsed typeField (TasksVal.arr elems) →
      isTaskSyncType typeField = true →
      elemsToRaw elems = some remote →
      handleDataMessage stored msg
        = rawMergeTaskLists (stored.map Task.toRaw) remote) ∧
    (∀ typeField ts,
      msg = DataMessage.parsed typeField (TasksVal.arr (ts.map taskToElem)) →
      isTaskSyncType typeField = true →
      handleDataMessage stored msg = (mergeTaskLists stored ts).map Task.toRaw) := by
  refine ⟨fun h => by rw [h]; rfl, fun h => by rw [h]; rfl, ?_, ?_, ?_, ?_, ?_, ?_⟩
  · rintro typeField tasks rfl htype
    unfold handleDataMessage
    dsimp only
    rw [if_neg (by simp [htype])]
  · rintro typeField rfl
    unfold handleDataMessage
    dsimp only
    by_cases htype : isTaskSyncType typeField = true
    · rw [if_pos htype]
    · rw [if_neg htype]
  · rintro typeField rfl
    unfold handleDataMessage
    dsimp only
    by_cases htype : isTaskSyncType typeField = true
    · rw [if_pos htype]
    · rw [if_neg htype]
  · rintro typeField elems rfl hnone
    unfold handleDataMessage
    dsimp only
    by_cases htype : isTaskSyncType typeField = true
    · rw [if_pos htype, hnone]
    · rw [if_neg htype]
  · rintro typeField elems remote rfl htype hsome
    unfold handleDataMessage
    dsimp only
    rw [if_pos htype, hsome]
  · rintro typeField ts rfl htype
    unfold handleDataMessage
    dsimp only
    rw [if_pos htype, elemsToRaw_taskToElem]
    dsimp only
    rw [rawMergeTaskLists_toRaw]

end Scheduler
